import Mathlib

/-!
A shallow embedding of the block-device listing utility in `src/main.rs`.

Pure parsing functions are translated directly.  File I/O is modelled by
`FileOutcome` (the observable result of opening and then reading a single
file), and the possibility of a Rust panic (from `unwrap`) by `RunResult`.
The functions that consult `/proc/mounts` and `/proc/swaps` additionally
return the list of proc files they opened, in order, so that statements
about how often those sources are read can be expressed.
-/

namespace Lsblk

/-- The set of whitespace characters recognised by the Rust regex class
`\s` (`[\t\n\x0b\x0c\r ]`) and by `str::trim` on ASCII text (Unicode
whitespace beyond ASCII is not modelled; all inputs of interest are
ASCII). -/
def isRustWhitespace (c : Char) : Bool :=
  c == ' ' || c == '\t' || c == '\n' || c == '\x0b' || c == '\x0c' || c == '\r'

/-- Models Rust `str::trim`: remove leading and trailing whitespace. -/
def rustTrim (s : String) : String :=
  ⟨((s.data.dropWhile isRustWhitespace).reverse.dropWhile isRustWhitespace).reverse⟩

/-- Split a character list at every newline (helper for `rustLines`). -/
def splitNl : List Char → List (List Char)
  | [] => [[]]
  | c :: rest =>
    if c = '\n' then [] :: splitNl rest
    else
      match splitNl rest with
      | l :: ls => (c :: l) :: ls
      | [] => [[c]]

/-- Drop a single trailing carriage return (helper for `rustLines`). -/
def stripCR (l : List Char) : List Char :=
  match l.getLast? with
  | some c => if c = '\r' then l.dropLast else l
  | none => l

/-- Models Rust `str::lines`: split on `'\n'`, drop a final empty line
(split-terminator semantics) and strip one trailing `'\r'` per line. -/
def rustLines (s : String) : List String :=
  let parts := splitNl s.data
  let parts :=
    match parts.getLast? with
    | some [] => parts.dropLast
    | _ => parts
  parts.map (fun l => ⟨stripCR l⟩)

/-- Models Rust `str::starts_with` for string patterns. -/
def startsWithL (s p : String) : Bool := p.data.isPrefixOf s.data

/-- Decimal value of a digit list (accumulator form, as Rust's integer
`from_str` accumulates). -/
def natFromDigits (l : List Char) : Nat :=
  l.foldl (fun acc c => acc * 10 + (c.toNat - 48)) 0

/-- Models Rust `from_str` for an unsigned integer type whose maximal
value is `bound`: an optional leading `'+'`, then one or more ASCII
digits; any other character, an empty digit string, or a value exceeding
`bound` is an error (`none`).  Rust checks overflow at each accumulation
step; since appending digits only increases the value this is equivalent
to checking the final value against `bound`. -/
def parse_uint (bound : Nat) (s : String) : Option Nat :=
  let l := match s.data with
    | '+' :: rest => rest
    | l => l
  if l ≠ [] ∧ l.all Char.isDigit then
    if natFromDigits l ≤ bound then some (natFromDigits l) else none
  else none

/-- Rust `u64::from_str` (`src/main.rs`, used through `parse_block_file::<u64>`). -/
def parse_u64 (s : String) : Option Nat := parse_uint (2 ^ 64 - 1) s

/-- `struct MajorMinor` (src/main.rs:27-31); the `u8` fields are carried
as `Nat` values, kept below 256 by the parser. -/
structure MajorMinor where
  major : Nat
  minor : Nat
deriving DecidableEq

/-- `MajorMinor::to_string` (src/main.rs:34-40): decimal major, `':'`,
decimal minor (Rust `u8::to_string` is `Nat.repr` of the value). -/
def MajorMinor.to_string (mm : MajorMinor) : String :=
  Nat.repr mm.major ++ ":" ++ Nat.repr mm.minor

/-- `MajorMinor::udev_path` (src/main.rs:42-48): `/run/udev/data/b<major>:<minor>`. -/
def MajorMinor.udev_path (mm : MajorMinor) : String :=
  "/run/udev/data/" ++ ("b" ++ mm.to_string)

/-- Split a character list at the first occurrence of `sep`; `none` when
`sep` does not occur. -/
def splitFirst (sep : Char) : List Char → Option (List Char × List Char)
  | [] => none
  | c :: cs =>
    if c = sep then some ([], cs)
    else
      match splitFirst sep cs with
      | some (a, b) => some (c :: a, b)
      | none => none

/-- The regex `^([0-9]+):([0-9]+)$` of `MajorMinor::from_str`
(src/main.rs:54): a string matches exactly when it is a nonempty digit
string, a colon, and a nonempty digit string (the digit class cannot
match `':'`, so the split point is the unique colon). -/
def regexMajMin (s : String) : Option (String × String) :=
  match splitFirst ':' s.data with
  | some (a, b) =>
    if a ≠ [] ∧ b ≠ [] ∧ a.all Char.isDigit ∧ b.all Char.isDigit then
      some (⟨a⟩, ⟨b⟩)
    else none
  | none => none

/-- Outcome of running Rust code that may `panic!` (via `unwrap`). -/
inductive RunResult (α : Type) where
  | panic : RunResult α
  | value : α → RunResult α
deriving DecidableEq

/-- `MajorMinor::from_str` (src/main.rs:51-63).  A regex mismatch is the
`InvalidData` error produced by the `invalid!` macro (modelled as
`Except.error ()`).  On a match, each captured digit string is fed to
`parse::<u8>().unwrap()`: a capture whose value exceeds 255 makes the
`unwrap` panic (the `major` field is evaluated before `minor`). -/
def MajorMinor.from_str (s : String) : RunResult (Except Unit MajorMinor) :=
  match regexMajMin s with
  | none => .value (.error ())
  | some (a, b) =>
    match parse_uint 255 a with
    | none => .panic
    | some major =>
      match parse_uint 255 b with
      | none => .panic
      | some minor => .value (.ok { major := major, minor := minor })

/-- The observable result of opening and then reading one file: the open
fails, the open succeeds but the read fails, or the read yields content. -/
inductive FileOutcome where
  | openFail : FileOutcome
  | readFail : FileOutcome
  | ok : String → FileOutcome
deriving DecidableEq

/-- `parse_block_file` (src/main.rs:96-103).  An open failure is turned
into `None` by the `none!` macro; a read failure hits
`file.read_to_string(contents).unwrap()` and panics; on success the
content is trimmed and parsed (`T::from_str(..).ok()`, with any panic of
the parser itself propagating). -/
def parse_block_file {α : Type} (parseFn : String → RunResult (Option α)) :
    FileOutcome → RunResult (Option α)
  | .openFail => .value none
  | .readFail => .panic
  | .ok contents => parseFn (rustTrim contents)

/-- `u64::from_str(..).ok()` as used by `parse_block_file::<u64>`: never panics. -/
def parse_u64_rr (s : String) : RunResult (Option Nat) :=
  .value (parse_u64 s)

/-- `MajorMinor::from_str(..).ok()` as used by `parse_block_file::<MajorMinor>`:
an `Err` becomes `none`, a panic propagates. -/
def parse_majmin_rr (s : String) : RunResult (Option MajorMinor) :=
  match MajorMinor.from_str s with
  | .panic => .panic
  | .value (.ok mm) => .value (some mm)
  | .value (.error _) => .value none

/-- `parse_sector_file` (src/main.rs:105-107): parse as `u64` and
multiply by 512.  The Rust `x*512` is 64-bit machine multiplication, so
the product is reduced modulo `2^64` (release builds wrap; a debug build
would panic on overflow — either way the mathematical product is not
returned once it reaches `2^64`). -/
def parse_sector_file (f : FileOutcome) : RunResult (Option Nat) :=
  match parse_block_file parse_u64_rr f with
  | .panic => .panic
  | .value o => .value (o.map (fun x => (x * 512) % 2 ^ 64))

/-- `parse_proc_mounts_line` (src/main.rs:109-115), regex
`^([^ ]+) ([^ ]+) .+$`: a maximal nonempty run of non-space characters,
one space, a maximal nonempty run of non-space characters, one space,
and at least one further character.  (Backtracking cannot produce any
other decomposition: shortening a `[^ ]+` capture leaves a non-space
character where the literal `' '` must match.) -/
def parse_proc_mounts_line (line : String) : Option (String × String) :=
  let g1 := line.data.takeWhile (fun c => c != ' ')
  match line.data.dropWhile (fun c => c != ' ') with
  | c1 :: r2 =>
    let g2 := r2.takeWhile (fun c => c != ' ')
    match r2.dropWhile (fun c => c != ' ') with
    | c2 :: r4 =>
      if c1 = ' ' ∧ c2 = ' ' ∧ g1 ≠ [] ∧ g2 ≠ [] ∧ r4 ≠ [] then some (⟨g1⟩, ⟨g2⟩)
      else none
    | [] => none
  | [] => none

/-- `parse_proc_swaps_line` (src/main.rs:128-134), regex
`^(/[^ ]+) +.+$`: a slash, a maximal nonempty run of non-space
characters, then a space followed by at least one further character
(`' '+` then `.+`; the `.+` may absorb spaces the greedy `' '+` gives
back). -/
def parse_proc_swaps_line (line : String) : Option String :=
  match line.data with
  | '/' :: rest =>
    let d := rest.takeWhile (fun c => c != ' ')
    match rest.dropWhile (fun c => c != ' ') with
    | ' ' :: tail =>
      if d ≠ [] ∧ tail ≠ [] then some ⟨'/' :: d⟩ else none
    | _ => none
  | _ => none

/-- Lookup in the `HashMap` built by `collect` in `parse_proc_mounts`:
later insertions of the same key overwrite earlier ones, so the result
is the value of the last matching entry in file order. -/
def hashMapGet (entries : List (String × String)) (k : String) : Option String :=
  entries.foldl (fun acc kv => if kv.1 = k then some kv.2 else acc) none

/-- The files the program reads besides the block directory tree:
`/proc/mounts`, `/proc/swaps`, and the udev database records (keyed by
path). -/
structure Env where
  mounts : FileOutcome
  swaps : FileOutcome
  udev : String → FileOutcome

/-- `parse_proc_mounts` (src/main.rs:117-126): open and read
`/proc/mounts` (both failures yield `None` via `none!`), keep the lines
the regex accepts.  The first component records that the source was
opened. -/
def parse_proc_mounts (env : Env) : List String × Option (List (String × String)) :=
  (["/proc/mounts"],
    match env.mounts with
    | .openFail => none
    | .readFail => none
    | .ok c => some ((rustLines c).filterMap parse_proc_mounts_line))

/-- `parse_proc_swaps` (src/main.rs:136-145): open and read
`/proc/swaps` (both failures yield `None`), keep the lines the regex
accepts.  The `HashSet` it collects into is modelled by the list with
`contains` membership. -/
def parse_proc_swaps (env : Env) : List String × Option (List String) :=
  (["/proc/swaps"],
    match env.swaps with
    | .openFail => none
    | .readFail => none
    | .ok c => some ((rustLines c).filterMap parse_proc_swaps_line))

/-- `read_partition_mountpoint` (src/main.rs:147-162): re-parse
`/proc/mounts` (the `.unwrap()` panics when that fails), look up
`/dev/<name>`; on a miss re-parse `/proc/swaps` (again `.unwrap()`) and
report `"[SWAP]"` on membership, `""` otherwise. -/
def read_partition_mountpoint (env : Env) (name : String) :
    List String × RunResult String :=
  let path := "/dev/" ++ name
  match parse_proc_mounts env with
  | (t, none) => (t, .panic)
  | (t, some mounts) =>
    match hashMapGet mounts path with
    | some mount => (t, .value mount)
    | none =>
      match parse_proc_swaps env with
      | (t2, none) => (t ++ t2, .panic)
      | (t2, some swaps) =>
        (t ++ t2, .value (if swaps.contains path then "[SWAP]" else ""))

/-- `struct BlockMetadata` (src/main.rs:65-71). -/
structure BlockMetadata where
  id_type : String
  id_fs_type : Option String
  id_fs_uuid : Option String
deriving DecidableEq

/-- `struct KeyValue` (src/main.rs:212-217). -/
structure KeyValue where
  key : String
  value : String
deriving DecidableEq

/-- `parse_line` (src/main.rs:219-225), regex `^E:([^=]+)=([^=]+)$`: an
`E:` prefix, then exactly one `'='` splitting the remainder into two
nonempty `'='`-free parts. -/
def parse_line (line : String) : Option KeyValue :=
  match line.data with
  | 'E' :: ':' :: rest =>
    match splitFirst '=' rest with
    | some (k, v) =>
      if k ≠ [] ∧ v ≠ [] ∧ v.contains '=' = false then
        some { key := ⟨k⟩, value := ⟨v⟩ }
      else none
    | none => none
  | _ => none

/-- One step of the accumulation loop of `parse_uevent_metadata`
(src/main.rs:245-258): state is `(id_type, id_fs_type, id_fs_uuid)`. -/
def uevent_step (st : Option String × Option String × Option String)
    (line : String) : Option String × Option String × Option String :=
  match parse_line line with
  | some kv =>
    if kv.key = "ID_TYPE" then (some kv.value, st.2.1, st.2.2)
    else if kv.key = "ID_FS_TYPE" then (st.1, some kv.value, st.2.2)
    else if kv.key = "ID_FS_UUID" then (st.1, st.2.1, some kv.value)
    else st
  | none => st

/-- `parse_uevent_metadata` (src/main.rs:240-269): fold the per-line
updates, then build a record only when `ID_TYPE` was seen. -/
def parse_uevent_metadata (data : String) : Option BlockMetadata :=
  match (rustLines data).foldl uevent_step (none, none, none) with
  | (some id_type, id_fs_type, id_fs_uuid) =>
    some { id_type := id_type, id_fs_type := id_fs_type, id_fs_uuid := id_fs_uuid }
  | (none, _, _) => none

/-- One sequential-overwrite step for a single key: a line that parses
to the key replaces the accumulator, any other line leaves it. -/
def record_key (key : String) (acc : Option String) (line : String) : Option String :=
  match parse_line line with
  | some kv => if kv.key = key then some kv.value else acc
  | none => acc

/-- The value of the last line of `ls` that `parse_line` maps to the
given key (§4.4's "the last occurrence wins"), `none` when no line
supplies the key. -/
def lastValueFor (key : String) (ls : List String) : Option String :=
  ls.foldl (record_key key) none

/-- `load_uevent_metadata` (src/main.rs:305-311): open the udev record
for the device; open and read failures are `None` via `none!`. -/
def load_uevent_metadata (env : Env) (device : MajorMinor) : Option BlockMetadata :=
  match env.udev device.udev_path with
  | .openFail => none
  | .readFail => none
  | .ok c => parse_uevent_metadata c

/-- `struct Partition` (src/main.rs:73-83). -/
structure Partition where
  name : String
  majmin : MajorMinor
  removable : Option Nat
  size : Option Nat
  readonly : Option Nat
  metadata : Option BlockMetadata
  mountpoint : String
deriving DecidableEq

/-- A child of the disk directory as seen by `read_partitions`: its name
and the outcomes of reading its `removable`, `dev`, `size` and `ro`
attribute files. -/
structure DirEntry where
  name : String
  removableF : FileOutcome
  devF : FileOutcome
  sizeF : FileOutcome
  roF : FileOutcome
deriving DecidableEq

/-- The loop body of `read_partitions` (src/main.rs:167-189) for one
directory entry: on a name-prefix match read `removable` then `dev`
(skipping the entry when `dev` is absent or unparsable), then `size`,
`ro`, the udev metadata and the mountpoint.  `none` means the entry
contributed no partition. -/
def scan_entry (env : Env) (block_name : String) (e : DirEntry) :
    List String × RunResult (Option Partition) :=
  if startsWithL e.name block_name then
    match parse_block_file parse_u64_rr e.removableF with
    | .panic => ([], .panic)
    | .value removable =>
      match parse_block_file parse_majmin_rr e.devF with
      | .panic => ([], .panic)
      | .value none => ([], .value none)
      | .value (some majmin) =>
        match parse_sector_file e.sizeF with
        | .panic => ([], .panic)
        | .value size =>
          match parse_block_file parse_u64_rr e.roF with
          | .panic => ([], .panic)
          | .value readonly =>
            match read_partition_mountpoint env e.name with
            | (t, .panic) => (t, .panic)
            | (t, .value mountpoint) =>
              (t, .value (some (Partition.mk e.name majmin removable size
                readonly (load_uevent_metadata env majmin) mountpoint)))
  else ([], .value none)

/-- `read_partitions` (src/main.rs:164-191): scan the entries in
directory order, collecting the partitions the loop body produces. -/
def read_partitions (env : Env) (entries : List DirEntry) (block_name : String) :
    List String × RunResult (List Partition) :=
  match entries with
  | [] => ([], .value [])
  | e :: es =>
    match scan_entry env block_name e with
    | (t, .panic) => (t, .panic)
    | (t, .value op) =>
      match read_partitions env es block_name with
      | (t2, .panic) => (t ++ t2, .panic)
      | (t2, .value ps) =>
        (t ++ t2, .value (match op with
          | some p => p :: ps
          | none => ps))

/-- Whether `parse_block_file::<MajorMinor>` on the entry's `dev`
attribute yields a value (the inclusion test of `read_partitions`). -/
def devOk (e : DirEntry) : Bool :=
  match parse_block_file parse_majmin_rr e.devF with
  | .value (some _) => true
  | _ => false

/-- `struct Block` (src/main.rs:85-94). -/
structure Block where
  name : String
  majmin : MajorMinor
  removable : Option Nat
  size : Option Nat
  readonly : Option Nat
  partitions : List Partition
  mountpoint : String
deriving DecidableEq

/-- `enum BlockType` (src/main.rs:313). -/
inductive BlockType where
  | Disk : BlockType
  | Partition : BlockType
deriving DecidableEq

/-- `struct Row` (src/main.rs:322-330); the `size` column string is
produced by the caller (see `rows_of_block`). -/
structure Row where
  name : String
  majmin : String
  removable : String
  size : String
  readonly : String
  row_type : BlockType
  mountpoint : String
deriving DecidableEq

/-- Left-pad with spaces to width `w` (Rust `{:>w}`). -/
def padL (w : Nat) (s : String) : String :=
  ⟨List.replicate (w - s.length) ' '⟩ ++ s

/-- Right-pad with spaces to width `w` (Rust `{:<w}`). -/
def padR (w : Nat) (s : String) : String :=
  s ++ ⟨List.replicate (w - s.length) ' '⟩

/-- `format_major_minor` (src/main.rs:332-334): `format!("{:>3}:{:<3}", ..)`. -/
def format_major_minor (mm : MajorMinor) : String :=
  padL 3 (Nat.repr mm.major) ++ ":" ++ padR 3 (Nat.repr mm.minor)

/-- `pretty_removable` (src/main.rs:345-351). -/
def pretty_removable : Option Nat → String
  | some 0 => " 0"
  | some _ => " 1"
  | none => "  "

/-- `pretty_readonly` (src/main.rs:388-394). -/
def pretty_readonly : Option Nat → String
  | some 0 => " 0"
  | some _ => " 1"
  | none => "  "

/-- The rows `print_blocks` (src/main.rs:405-436) pushes for one block:
the disk row followed by one row per partition, the last partition
prefixed `└─` and the others `├─`.  `pretty_size` mixes in `f64`
formatting, which is pure presentation; the size column is therefore
supplied as the `sizeFmt` parameter, applied exactly where the source
applies `pretty_size`.  Note the partition rows take their `removable`
column from `block.removable` (src/main.rs:429). -/
def rows_of_block (sizeFmt : Option Nat → String) (b : Block) : List Row :=
  { name := b.name, majmin := format_major_minor b.majmin,
    removable := pretty_removable b.removable, size := sizeFmt b.size,
    readonly := pretty_readonly b.readonly, row_type := .Disk,
    mountpoint := b.mountpoint } ::
  b.partitions.enum.map (fun ip =>
    { name := (if ip.1 + 1 = b.partitions.length then "└─" else "├─") ++ ip.2.name,
      majmin := format_major_minor ip.2.majmin,
      removable := pretty_removable b.removable,
      size := sizeFmt ip.2.size,
      readonly := pretty_readonly ip.2.readonly,
      row_type := .Partition,
      mountpoint := ip.2.mountpoint })

/-- The full row list of `print_blocks`: the per-block rows in block order. -/
def rows_of_blocks (sizeFmt : Option Nat → String) (blocks : List Block) : List Row :=
  (blocks.map (rows_of_block sizeFmt)).flatten

/-- The regex `^(\S+)\s+(\S+)\s+.+$` that §4.3 of the specification
gives for mount-table lines, modelled from the specification's words for
comparison with `parse_proc_mounts_line`: two maximal nonempty runs of
non-whitespace characters separated by a nonempty whitespace run, then a
whitespace character and at least one further character. -/
def spec_mounts_line_match (line : String) : Option (String × String) :=
  let a := line.data.takeWhile (fun c => !(isRustWhitespace c))
  let r1 := line.data.dropWhile (fun c => !(isRustWhitespace c))
  let w1 := r1.takeWhile isRustWhitespace
  let r2 := r1.dropWhile isRustWhitespace
  let b := r2.takeWhile (fun c => !(isRustWhitespace c))
  match r2.dropWhile (fun c => !(isRustWhitespace c)) with
  | c :: rest =>
    if a ≠ [] ∧ w1 ≠ [] ∧ b ≠ [] ∧ isRustWhitespace c = true ∧ rest ≠ [] then
      some (⟨a⟩, ⟨b⟩)
    else none
  | [] => none

-- The unit tests of src/main.rs, replayed on the embedding.

example : parse_line "E:ID_ATA_FEATURE_SET_PM=1" =
    some { key := "ID_ATA_FEATURE_SET_PM", value := "1" } := by decide

example : parse_line "E:KEY=one two three" =
    some { key := "KEY", value := "one two three" } := by decide

example : parse_line "W:12" = none := by decide

example : parse_line "E:ID_ATA_FEATURE_SET_PM" = none := by decide

example : parse_line "E:ID_ATA_FEATURE_SET_PM=1=1" = none := by decide

example : parse_uevent_metadata "E:ID_TYPE=disk" =
    some { id_type := "disk", id_fs_type := none, id_fs_uuid := none } := by decide

example : parse_uevent_metadata "E:ID_TYPE=disk\nE:ID_FS_TYPE=ext4" =
    some { id_type := "disk", id_fs_type := some "ext4", id_fs_uuid := none } := by decide

example : parse_uevent_metadata "E:ID_FS_TYPE=ext4" = none := by decide

example : parse_uevent_metadata "E:ID_TYPE=disk\nE:ID_FS_UUID=eca1e7f9-42c7-49b7-9f42-bec0c3e975e6" =
    some { id_type := "disk", id_fs_type := none,
           id_fs_uuid := some "eca1e7f9-42c7-49b7-9f42-bec0c3e975e6" } := by decide

example : format_major_minor { major := 1, minor := 0 } = "  1:0  " := by decide

example : format_major_minor { major := 10, minor := 0 } = " 10:0  " := by decide

example : format_major_minor { major := 1, minor := 20 } = "  1:20 " := by decide

example : format_major_minor { major := 100, minor := 20 } = "100:20 " := by decide

example : format_major_minor { major := 100, minor := 200 } = "100:200" := by decide

example : pretty_readonly none = "  " := by decide

example : pretty_readonly (some 0) = " 0" := by decide

example : pretty_readonly (some 2) = " 1" := by decide

/-- C1: the three leaf failure modes of `parse_block_file`.  An open
failure and a parse failure are swallowed into `none`, but — against the
claim — a read failure after a successful open hits
`read_to_string(..).unwrap()` and panics instead of yielding the absent
value. -/
theorem parse_block_file_failure_modes {α : Type}
    (parseFn : String → RunResult (Option α)) :
    parse_block_file parseFn FileOutcome.openFail = RunResult.value none
    ∧ parse_block_file parseFn FileOutcome.readFail = RunResult.panic
    ∧ parse_block_file parse_u64_rr (FileOutcome.ok "junk") = RunResult.value none :=
  ⟨rfl, rfl, by decide⟩

/-- C2 counterexample: `"256:0"` matches `^\d+:\d+$` with a component
exceeding 255, and `MajorMinor::from_str` panics on it (in the
`parse::<u8>().unwrap()`) instead of returning a `FormatError`. -/
theorem from_str_overflow_counterexample :
    MajorMinor.from_str "256:0" = RunResult.panic := rfl

/-- C2 (amended): `MajorMinor::from_str` returns the format error
exactly for strings the regex rejects; on strings the regex accepts
whose first or second component exceeds 255 it panics rather than
returning an error. -/
theorem from_str_error_characterization (s : String) :
    (MajorMinor.from_str s = RunResult.value (Except.error ()) ↔ regexMajMin s = none)
    ∧ (MajorMinor.from_str s = RunResult.panic ↔
        ∃ a b, regexMajMin s = some (a, b) ∧
          (parse_uint 255 a = none ∨
            ∃ m, parse_uint 255 a = some m ∧ parse_uint 255 b = none)) := by
  unfold MajorMinor.from_str
  cases h : regexMajMin s with
  | none => simp
  | some ab =>
    obtain ⟨a, b⟩ := ab
    cases ha : parse_uint 255 a with
    | none =>
      simp [ha]
      exact ⟨a, b, ⟨rfl, rfl⟩, Or.inl ha⟩
    | some m =>
      cases hb : parse_uint 255 b with
      | none =>
        simp [ha, hb]
        exact ⟨a, b, ⟨rfl, rfl⟩, Or.inr ⟨⟨m, ha⟩, hb⟩⟩
      | some mb => simp [ha, hb]

/-- C7 counterexample: sector count `2^55` parses as a `u64`, but
`parse_sector_file` yields the wrapped product `0`, not the exact
`2^55 * 512 = 2^64`. -/
theorem parse_sector_file_overflow_counterexample :
    parse_sector_file (FileOutcome.ok "36028797018963968") = RunResult.value (some 0)
    ∧ (36028797018963968 * 512 : Nat) ≠ 0 :=
  ⟨by decide, by decide⟩

/-- C7 (amended): a missing or unparsable `size` attribute is absent; a
sector count `N` yields `(N * 512) % 2^64` bytes, which is the exact
product `N * 512` whenever that product stays below `2^64`. -/
theorem parse_sector_file_amended (c : String) (N : Nat) :
    parse_sector_file FileOutcome.openFail = RunResult.value none
    ∧ (parse_u64 (rustTrim c) = none →
        parse_sector_file (FileOutcome.ok c) = RunResult.value none)
    ∧ (parse_u64 (rustTrim c) = some N →
        parse_sector_file (FileOutcome.ok c) = RunResult.value (some ((N * 512) % 2 ^ 64)))
    ∧ (N * 512 < 2 ^ 64 → (N * 512) % 2 ^ 64 = N * 512) := by
  refine ⟨rfl, ?_, ?_, fun h => Nat.mod_eq_of_lt h⟩
  · intro h
    simp [parse_sector_file, parse_block_file, parse_u64_rr, h]
  · intro h
    simp [parse_sector_file, parse_block_file, parse_u64_rr, h]

/-- Witness for C7's amended theorem at the specification's example:
content `"8388608"` yields `8388608 * 512 = 4294967296` bytes exactly. -/
theorem parse_sector_file_amended_witness :
    parse_sector_file (FileOutcome.ok "8388608") =
      RunResult.value (some ((8388608 * 512) % 2 ^ 64))
    ∧ (8388608 * 512) % 2 ^ 64 = 8388608 * 512 :=
  ⟨(parse_sector_file_amended "8388608" 8388608).2.2.1 (by decide),
    (parse_sector_file_amended "8388608" 8388608).2.2.2 (by decide)⟩

/-- C5: `read_partition_mountpoint` resolves the mount table first: when
`/dev/<name>` has an entry there the mountpoint is returned (the swap
list is not even opened), and only on a miss is the swap set consulted,
yielding `"[SWAP]"` on membership and `""` otherwise. -/
theorem read_partition_mountpoint_priority (env : Env) (name mc : String)
    (hm : env.mounts = FileOutcome.ok mc) :
    (∀ mp, hashMapGet ((rustLines mc).filterMap parse_proc_mounts_line)
        ("/dev/" ++ name) = some mp →
      read_partition_mountpoint env name = (["/proc/mounts"], RunResult.value mp))
    ∧ (∀ sc, env.swaps = FileOutcome.ok sc →
        hashMapGet ((rustLines mc).filterMap parse_proc_mounts_line)
          ("/dev/" ++ name) = none →
        read_partition_mountpoint env name = (["/proc/mounts", "/proc/swaps"],
          RunResult.value
            (if ((rustLines sc).filterMap parse_proc_swaps_line).contains ("/dev/" ++ name)
             then "[SWAP]" else ""))) := by
  constructor
  · intro mp hget
    simp [read_partition_mountpoint, parse_proc_mounts, hm, hget]
  · intro sc hs hget
    simp [read_partition_mountpoint, parse_proc_mounts, parse_proc_swaps, hm, hs, hget]

/-- Witness for C5 at a device present in both tables: the mount-table
entry `/mnt` wins and `"[SWAP]"` is not produced, although the swap set
does contain `/dev/sda1`. -/
theorem read_partition_mountpoint_priority_witness :
    read_partition_mountpoint
        { mounts := FileOutcome.ok "/dev/sda1 /mnt rest",
          swaps := FileOutcome.ok "/dev/sda1 x y",
          udev := fun _ => FileOutcome.openFail } "sda1"
      = (["/proc/mounts"], RunResult.value "/mnt")
    ∧ ((rustLines "/dev/sda1 x y").filterMap parse_proc_swaps_line).contains "/dev/sda1"
        = true := by
  constructor
  · exact (read_partition_mountpoint_priority
      { mounts := FileOutcome.ok "/dev/sda1 /mnt rest",
        swaps := FileOutcome.ok "/dev/sda1 x y",
        udev := fun _ => FileOutcome.openFail }
      "sda1" "/dev/sda1 /mnt rest" rfl).1 "/mnt" (by decide)
  · decide

set_option maxRecDepth 8192 in
/-- The canonical decimal form of a value below 256 is nonempty, all
digits, and `u8`-parses back to the value. -/
theorem repr_digits_fact :
    ∀ n, n < 256 → ((Nat.repr n).data ≠ [] ∧ (Nat.repr n).data.all Char.isDigit = true
      ∧ parse_uint 255 (Nat.repr n) = some n) := by decide

/-- `splitFirst` splits at the first occurrence of the separator. -/
theorem splitFirst_append (sep : Char) (l₁ l₂ : List Char) (h : sep ∉ l₁) :
    splitFirst sep (l₁ ++ sep :: l₂) = some (l₁, l₂) := by
  induction l₁ with
  | nil => simp [splitFirst]
  | cons c cs ih =>
    have hc : ¬ c = sep := by
      rintro rfl
      exact h (List.mem_cons_self _ _)
    have hcs : sep ∉ cs := fun hmem => h (List.mem_cons_of_mem _ hmem)
    simp [splitFirst, hc, ih hcs]

/-- A list of digit characters does not contain a colon. -/
theorem colon_not_mem_of_digits (l : List Char) (h : l.all Char.isDigit = true) :
    ':' ∉ l := by
  intro hmem
  have hd := List.all_eq_true.mp h ':' hmem
  exact absurd hd (by decide)

/-- The `MajorMinor` regex accepts the canonical text of a `u8` pair and
captures the two decimal components. -/
theorem regexMajMin_canonical (a b : Nat) (ha : a < 256) (hb : b < 256) :
    regexMajMin (Nat.repr a ++ ":" ++ Nat.repr b) = some (Nat.repr a, Nat.repr b) := by
  obtain ⟨hne_a, hdig_a, -⟩ := repr_digits_fact a ha
  obtain ⟨hne_b, hdig_b, -⟩ := repr_digits_fact b hb
  have hdata : (Nat.repr a ++ ":" ++ Nat.repr b).data
      = (Nat.repr a).data ++ ':' :: (Nat.repr b).data := by
    simp [String.data_append]
  rw [regexMajMin, hdata,
    splitFirst_append ':' _ _ (colon_not_mem_of_digits _ hdig_a)]
  simp [hne_a, hne_b, hdig_a, hdig_b]

/-- C3: on the canonical text `"<major>:<minor>"` of any pair of 8-bit
values (decimal, no leading zeros), `MajorMinor::from_str` succeeds with
exactly that pair, and `MajorMinor::to_string` maps the pair back to the
same text — parse-then-format is the identity on canonical strings. -/
theorem majorminor_roundtrip (a b : Nat) (ha : a < 256) (hb : b < 256) :
    MajorMinor.from_str (Nat.repr a ++ ":" ++ Nat.repr b)
      = RunResult.value (Except.ok { major := a, minor := b })
    ∧ MajorMinor.to_string { major := a, minor := b }
      = Nat.repr a ++ ":" ++ Nat.repr b := by
  obtain ⟨-, -, hp_a⟩ := repr_digits_fact a ha
  obtain ⟨-, -, hp_b⟩ := repr_digits_fact b hb
  constructor
  · simp [MajorMinor.from_str, regexMajMin_canonical a b ha hb, hp_a, hp_b]
  · rfl

/-- Witness for C3 at the pair `(100, 20)`. -/
theorem majorminor_roundtrip_witness :
    MajorMinor.from_str "100:20" = RunResult.value (Except.ok { major := 100, minor := 20 })
    ∧ MajorMinor.to_string { major := 100, minor := 20 } = "100:20" := by
  have h := majorminor_roundtrip 100 20 (by decide) (by decide)
  exact ⟨h.1, h.2⟩

/-- One `uevent_step` is the three per-key overwrite steps in parallel. -/
theorem uevent_step_eq (st : Option String × Option String × Option String)
    (line : String) :
    uevent_step st line =
      (record_key "ID_TYPE" st.1 line, record_key "ID_FS_TYPE" st.2.1 line,
       record_key "ID_FS_UUID" st.2.2 line) := by
  obtain ⟨t, f, u⟩ := st
  cases hp : parse_line line with
  | none => simp [uevent_step, record_key, hp]
  | some kv =>
    by_cases h1 : kv.key = "ID_TYPE"
    · simp [uevent_step, record_key, hp, h1]
    · by_cases h2 : kv.key = "ID_FS_TYPE"
      · simp [uevent_step, record_key, hp, h1, h2]
      · by_cases h3 : kv.key = "ID_FS_UUID"
        · simp [uevent_step, record_key, hp, h1, h2, h3]
        · simp [uevent_step, record_key, hp, h1, h2, h3]

/-- The accumulation loop of `parse_uevent_metadata` computes the three
single-key folds componentwise. -/
theorem foldl_uevent_eq (ls : List String) :
    ∀ t f u, ls.foldl uevent_step (t, f, u) =
      (ls.foldl (record_key "ID_TYPE") t, ls.foldl (record_key "ID_FS_TYPE") f,
       ls.foldl (record_key "ID_FS_UUID") u) := by
  induction ls with
  | nil => intro t f u; rfl
  | cons l ls ih =>
    intro t f u
    rw [List.foldl_cons, List.foldl_cons, List.foldl_cons, List.foldl_cons,
      uevent_step_eq]
    exact ih _ _ _

/-- A single overwrite step yields a value exactly when the accumulator
already had one or the line supplies the key. -/
theorem record_key_isSome (key : String) (acc : Option String) (l : String) :
    (record_key key acc l).isSome = true ↔
      (acc.isSome = true ∨ ∃ v, parse_line l = some { key := key, value := v }) := by
  cases hp : parse_line l with
  | none => simp [record_key, hp]
  | some kv =>
    obtain ⟨k, v⟩ := kv
    by_cases hk : k = key
    · subst hk
      simp [record_key, hp]
    · simp [record_key, hp, hk]

/-- The single-key fold yields a value exactly when the initial
accumulator had one or some line supplies the key. -/
theorem foldl_record_key_isSome (key : String) (ls : List String) :
    ∀ acc, ((ls.foldl (record_key key) acc).isSome = true ↔
      (acc.isSome = true ∨
        ∃ l ∈ ls, ∃ v, parse_line l = some { key := key, value := v })) := by
  induction ls with
  | nil => intro acc; simp
  | cons l ls ih =>
    intro acc
    rw [List.foldl_cons, ih (record_key key acc l), record_key_isSome]
    constructor
    · rintro ((h | ⟨v, hv⟩) | ⟨l', hl', v, hv⟩)
      · exact Or.inl h
      · exact Or.inr ⟨l, List.mem_cons_self _ _, v, hv⟩
      · exact Or.inr ⟨l', List.mem_cons_of_mem _ hl', v, hv⟩
    · rintro (h | ⟨l', hl', v, hv⟩)
      · exact Or.inl (Or.inl h)
      · rcases List.mem_cons.mp hl' with rfl | hmem
        · exact Or.inl (Or.inr ⟨v, hv⟩)
        · exact Or.inr ⟨l', hmem, v, hv⟩

/-- `lastValueFor` yields a value exactly when some line supplies the key. -/
theorem lastValueFor_isSome (key : String) (ls : List String) :
    (lastValueFor key ls).isSome = true ↔
      ∃ l ∈ ls, ∃ v, parse_line l = some { key := key, value := v } := by
  simpa [lastValueFor] using foldl_record_key_isSome key ls none

/-- C4: `parse_uevent_metadata` returns the record built from the last
`ID_TYPE`, `ID_FS_TYPE` and `ID_FS_UUID` lines (each field the value of
the last line supplying its key, absent when no such line exists), and
the record is present if and only if at least one line parses as
`E:ID_TYPE=<value>` — even when `ID_FS_TYPE`/`ID_FS_UUID` lines exist. -/
theorem parse_uevent_metadata_characterization (data : String) :
    parse_uevent_metadata data =
      (match lastValueFor "ID_TYPE" (rustLines data) with
       | some t => some (BlockMetadata.mk t
           (lastValueFor "ID_FS_TYPE" (rustLines data))
           (lastValueFor "ID_FS_UUID" (rustLines data)))
       | none => none)
    ∧ ((parse_uevent_metadata data).isSome = true ↔
        ∃ l ∈ rustLines data, ∃ v,
          parse_line l = some { key := "ID_TYPE", value := v }) := by
  have hmain : parse_uevent_metadata data =
      (match lastValueFor "ID_TYPE" (rustLines data) with
       | some t => some (BlockMetadata.mk t
           (lastValueFor "ID_FS_TYPE" (rustLines data))
           (lastValueFor "ID_FS_UUID" (rustLines data)))
       | none => none) := by
    rw [parse_uevent_metadata, foldl_uevent_eq]
    simp only [show ∀ k ls, List.foldl (record_key k) none ls = lastValueFor k ls
      from fun k ls => rfl]
    cases lastValueFor "ID_TYPE" (rustLines data) <;> rfl
  refine ⟨hmain, ?_⟩
  rw [hmain, ← lastValueFor_isSome "ID_TYPE" (rustLines data)]
  cases h : lastValueFor "ID_TYPE" (rustLines data) <;> simp

/-- Elements of a `takeWhile` prefix satisfy the predicate. -/
theorem mem_takeWhile_pred {α : Type} (p : α → Bool) :
    ∀ (l : List α) (a : α), a ∈ l.takeWhile p → p a = true := by
  intro l
  induction l with
  | nil =>
    intro a h
    simp [List.takeWhile_nil] at h
  | cons b bs ih =>
    intro a h
    rw [List.takeWhile_cons] at h
    by_cases hp : p b = true
    · rw [if_pos hp] at h
      rcases List.mem_cons.mp h with rfl | hmem
      · exact hp
      · exact ih _ hmem
    · rw [if_neg hp] at h
      simp at h

/-- `takeWhile` stops exactly at the first element failing the predicate. -/
theorem takeWhile_append_of {α : Type} (p : α → Bool) (l₁ : List α) (x : α)
    (l₂ : List α) (h₁ : ∀ c ∈ l₁, p c = true) (hx : p x = false) :
    (l₁ ++ x :: l₂).takeWhile p = l₁ := by
  induction l₁ with
  | nil => simp [List.takeWhile_cons, hx]
  | cons c cs ih =>
    have hc := h₁ c (List.mem_cons_self _ _)
    have hcs : ∀ c' ∈ cs, p c' = true := fun c' h' => h₁ c' (List.mem_cons_of_mem _ h')
    simp [List.takeWhile_cons, hc, ih hcs]

/-- `dropWhile` drops exactly up to the first element failing the predicate. -/
theorem dropWhile_append_of {α : Type} (p : α → Bool) (l₁ : List α) (x : α)
    (l₂ : List α) (h₁ : ∀ c ∈ l₁, p c = true) (hx : p x = false) :
    (l₁ ++ x :: l₂).dropWhile p = x :: l₂ := by
  induction l₁ with
  | nil => simp [List.dropWhile_cons, hx]
  | cons c cs ih =>
    have hc := h₁ c (List.mem_cons_self _ _)
    have hcs : ∀ c' ∈ cs, p c' = true := fun c' h' => h₁ c' (List.mem_cons_of_mem _ h')
    simp [List.dropWhile_cons, hc, ih hcs]

/-- C8 (amended): a mount-table line contributes `(device, mountpoint)`
if and only if it decomposes as a nonempty space-free field, one single
space, a nonempty space-free field, one single space, and a nonempty
remainder — the semantics of the source regex `^([^ ]+) ([^ ]+) .+$`,
whose separators are single literal spaces and whose fields are runs of
non-space characters (so a tab is a field character, not a separator).
Non-matching lines are skipped (`parse_proc_mounts` keeps only the lines
on which this parser succeeds). -/
theorem parse_proc_mounts_line_characterization (line d m : String) :
    parse_proc_mounts_line line = some (d, m) ↔
      ∃ rest : List Char,
        line.data = d.data ++ ' ' :: (m.data ++ ' ' :: rest) ∧
        d.data ≠ [] ∧ m.data ≠ [] ∧ rest ≠ [] ∧
        (∀ c ∈ d.data, c ≠ ' ') ∧ (∀ c ∈ m.data, c ≠ ' ') := by
  constructor
  · intro h
    simp only [parse_proc_mounts_line] at h
    split at h
    next c1 r2 heq1 =>
      split at h
      next c2 r4 heq2 =>
        split at h
        next hc =>
          obtain ⟨hc1, hc2, hg1, hg2, hr4⟩ := hc
          rw [Option.some.injEq, Prod.mk.injEq] at h
          obtain ⟨hd, hm⟩ := h
          subst hd
          subst hm
          subst hc1
          subst hc2
          refine ⟨r4, ?_, hg1, hg2, hr4, ?_, ?_⟩
          · calc line.data
                = line.data.takeWhile (fun c => c != ' ')
                  ++ line.data.dropWhile (fun c => c != ' ') :=
                  (List.takeWhile_append_dropWhile _ _).symm
              _ = line.data.takeWhile (fun c => c != ' ') ++ ' ' :: r2 := by
                  rw [heq1]
              _ = line.data.takeWhile (fun c => c != ' ')
                  ++ ' ' :: (r2.takeWhile (fun c => c != ' ')
                    ++ r2.dropWhile (fun c => c != ' ')) := by
                  rw [List.takeWhile_append_dropWhile]
              _ = line.data.takeWhile (fun c => c != ' ')
                  ++ ' ' :: (r2.takeWhile (fun c => c != ' ') ++ ' ' :: r4) := by
                  rw [heq2]
          · intro c hc
            have := mem_takeWhile_pred _ _ _ hc
            simpa using this
          · intro c hc
            have := mem_takeWhile_pred _ _ _ hc
            simpa using this
        next => simp at h
      next => simp at h
    next => simp at h
  · rintro ⟨rest, hdata, hdne, hmne, hrne, hdc, hmc⟩
    have hd' : ∀ c ∈ d.data, ((c != ' ') = true) := fun c hc => by
      simpa using hdc c hc
    have hm' : ∀ c ∈ m.data, ((c != ' ') = true) := fun c hc => by
      simpa using hmc c hc
    have hx : ((' ' : Char) != ' ') = false := by decide
    have e1 : (d.data ++ ' ' :: (m.data ++ ' ' :: rest)).dropWhile (fun c => c != ' ')
        = ' ' :: (m.data ++ ' ' :: rest) := dropWhile_append_of _ _ _ _ hd' hx
    have e2 : (d.data ++ ' ' :: (m.data ++ ' ' :: rest)).takeWhile (fun c => c != ' ')
        = d.data := takeWhile_append_of _ _ _ _ hd' hx
    have e3 : (m.data ++ ' ' :: rest).dropWhile (fun c => c != ' ') = ' ' :: rest :=
      dropWhile_append_of _ _ _ _ hm' hx
    have e4 : (m.data ++ ' ' :: rest).takeWhile (fun c => c != ' ') = m.data :=
      takeWhile_append_of _ _ _ _ hm' hx
    simp [parse_proc_mounts_line, hdata, e1, e2, e3, e4, hdne, hmne, hrne]

/-- C8 counterexample: the line `"a  b c"` (two spaces after the first
field) matches the specification's regex `^(\S+)\s+(\S+)\s+.+$` with
captures `("a", "b")`, but the source regex `^([^ ]+) ([^ ]+) .+$`
rejects it, so the code contributes nothing for it. -/
theorem parse_proc_mounts_line_counterexample :
    spec_mounts_line_match "a  b c" = some ("a", "b")
    ∧ parse_proc_mounts_line "a  b c" = none := by
  constructor <;> decide

/-- A mountpoint lookup that completes (does not panic) has opened
`/proc/mounts` exactly once. -/
theorem read_partition_mountpoint_trace (env : Env) (name : String) (t : List String)
    (r : String) (h : read_partition_mountpoint env name = (t, RunResult.value r)) :
    t.count "/proc/mounts" = 1 := by
  unfold read_partition_mountpoint parse_proc_mounts parse_proc_swaps at h
  cases hm : env.mounts with
  | openFail =>
    rw [hm] at h
    simp at h
  | readFail =>
    rw [hm] at h
    simp at h
  | ok mc =>
    rw [hm] at h
    dsimp only at h
    split at h
    next mount hget =>
      rw [Prod.mk.injEq] at h
      obtain ⟨h1, -⟩ := h
      rw [← h1]
      decide
    next hget =>
      cases hs : env.swaps with
      | openFail =>
        rw [hs] at h
        simp at h
      | readFail =>
        rw [hs] at h
        simp at h
      | ok sc =>
        rw [hs] at h
        dsimp only at h
        rw [Prod.mk.injEq] at h
        obtain ⟨h1, -⟩ := h
        rw [← h1]
        decide

/-- What the loop body of `read_partitions` can produce for one entry
when it completes: the mount source is opened exactly once when the
entry contributes a partition and never otherwise; the entry contributes
a partition exactly when its name has the block-name prefix and its
`dev` attribute is present and parses; a contributed partition carries
the entry's name. -/
theorem scan_entry_spec (env : Env) (bn : String) (e : DirEntry) (t : List String)
    (op : Option Partition) (h : scan_entry env bn e = (t, RunResult.value op)) :
    (t.count "/proc/mounts" = if op.isSome then 1 else 0)
    ∧ (op.isSome = true ↔ (startsWithL e.name bn && devOk e) = true)
    ∧ (∀ p, op = some p → p.name = e.name) := by
  unfold scan_entry at h
  split at h
  case isTrue hstart =>
    split at h
    next hrem => simp at h
    next removable hrem =>
      split at h
      next hdev => simp at h
      next hdev =>
        rw [Prod.mk.injEq] at h
        obtain ⟨h1, h2⟩ := h
        injection h2 with h2
        subst h1
        subst h2
        refine ⟨rfl, ?_, by simp⟩
        simp [hstart, devOk, hdev]
      next majmin hdev =>
        split at h
        next hsize => simp at h
        next size hsize =>
          split at h
          next hro => simp at h
          next readonly hro =>
            split at h
            next t1 heq1 => simp at h
            next t1 mountpoint heq1 =>
              rw [Prod.mk.injEq] at h
              obtain ⟨h1, h2⟩ := h
              injection h2 with h2
              subst h1
              subst h2
              refine ⟨?_, ?_, ?_⟩
              · simpa using read_partition_mountpoint_trace env e.name t1 mountpoint heq1
              · simp [hstart, devOk, hdev]
              · intro p hp
                injection hp with hp
                subst hp
                rfl
  case isFalse hstart =>
    rw [Prod.mk.injEq] at h
    obtain ⟨h1, h2⟩ := h
    injection h2 with h2
    subst h1
    subst h2
    constructor
    · rfl
    constructor
    · simp [Bool.and_eq_true]
      intro hcon
      exact absurd hcon hstart
    · simp

/-- A panicking entry aborts the whole scan: when the entries before it
complete and its own processing panics, `read_partitions` panics and
yields no partition sequence. -/
theorem read_partitions_append_panic (env : Env) (bn : String) (e : DirEntry)
    (es₂ : List DirEntry) (te : List String)
    (hp : scan_entry env bn e = (te, RunResult.panic)) :
    ∀ (es₁ : List DirEntry) (t1 : List String) (ps1 : List Partition),
      read_partitions env es₁ bn = (t1, RunResult.value ps1) →
      read_partitions env (es₁ ++ e :: es₂) bn = (t1 ++ te, RunResult.panic) := by
  intro es₁
  induction es₁ with
  | nil =>
    intro t1 ps1 h
    simp only [read_partitions] at h
    rw [Prod.mk.injEq] at h
    obtain ⟨h1, -⟩ := h
    subst h1
    simp only [List.nil_append, read_partitions, hp]
  | cons e₀ es₁ ih =>
    intro t1 ps1 h
    simp only [read_partitions] at h
    split at h
    next t0 heq0 => simp at h
    next t0 op heq0 =>
      split at h
      next t2 heq2 => simp at h
      next t2 ps2 heq2 =>
        rw [Prod.mk.injEq] at h
        obtain ⟨h1, -⟩ := h
        subst h1
        have hrec := ih t2 ps2 heq2
        simp only [List.cons_append, read_partitions, heq0, List.append_eq]
        rw [hrec]
        simp [List.append_assoc]

/-- C6 (amended): in a completed scan the produced partition sequence
consists, in order, of exactly the prefix-matching entries whose `dev`
attribute is readable and parses as a major:minor pair (each partition
named after its entry), and replacing one excluded candidate (prefix
match, `dev` open-failed or regex-rejected) by one with a present and
valid `dev` makes the sequence exactly one element longer.  But a
prefix-matching candidate on which the `dev` read panics — the file
opens and the read fails, or the content matches `^\d+:\d+$` with a
component over 255 — is not merely excluded: the whole scan aborts with
a panic and no partition sequence exists at all. -/
theorem read_partitions_inclusion_amended (env : Env) (bn : String) :
    (∀ (es : List DirEntry) (t : List String) (ps : List Partition),
      read_partitions env es bn = (t, RunResult.value ps) →
      ps.map Partition.name
        = (es.filter fun e => startsWithL e.name bn && devOk e).map DirEntry.name)
    ∧ (∀ (es₁ es₂ : List DirEntry) (e e' : DirEntry) (t t' : List String)
        (ps ps' : List Partition),
      read_partitions env (es₁ ++ e :: es₂) bn = (t, RunResult.value ps) →
      read_partitions env (es₁ ++ e' :: es₂) bn = (t', RunResult.value ps') →
      startsWithL e.name bn = true → devOk e = false →
      startsWithL e'.name bn = true → devOk e' = true →
      ps'.length = ps.length + 1)
    ∧ (∀ (es₁ es₂ : List DirEntry) (e : DirEntry) (t1 : List String)
        (ps1 : List Partition),
      read_partitions env es₁ bn = (t1, RunResult.value ps1) →
      startsWithL e.name bn = true →
      parse_block_file parse_u64_rr e.removableF ≠ RunResult.panic →
      parse_block_file parse_majmin_rr e.devF = RunResult.panic →
      read_partitions env (es₁ ++ e :: es₂) bn = (t1, RunResult.panic)) := by
  have main : ∀ (es : List DirEntry) (t : List String) (ps : List Partition),
      read_partitions env es bn = (t, RunResult.value ps) →
      ps.map Partition.name
        = (es.filter fun e => startsWithL e.name bn && devOk e).map DirEntry.name := by
    intro es
    induction es with
    | nil =>
      intro t ps h
      simp only [read_partitions] at h
      rw [Prod.mk.injEq] at h
      obtain ⟨-, h2⟩ := h
      injection h2 with h2
      subst h2
      simp
    | cons e es ih =>
      intro t ps h
      simp only [read_partitions] at h
      split at h
      next t1 heq1 => simp at h
      next t1 op heq1 =>
        split at h
        next t2 heq2 => simp at h
        next t2 ps2 heq2 =>
          rw [Prod.mk.injEq] at h
          obtain ⟨-, h2⟩ := h
          injection h2 with h2
          obtain ⟨-, hiff, hname⟩ := scan_entry_spec env bn e t1 op heq1
          cases op with
          | none =>
            have hpred : (startsWithL e.name bn && devOk e) = false := by
              rcases Bool.eq_false_or_eq_true (startsWithL e.name bn && devOk e) with ht | hf
              · exact absurd (hiff.mpr ht) (by simp)
              · exact hf
            subst h2
            rw [List.filter_cons, if_neg (by simp [hpred])]
            exact ih t2 ps2 heq2
          | some p =>
            have hpred : (startsWithL e.name bn && devOk e) = true := hiff.mp (by simp)
            subst h2
            rw [List.filter_cons, if_pos (by simp [hpred])]
            simp only [List.map_cons, hname p rfl]
            rw [ih t2 ps2 heq2]
  refine ⟨main, ?_, ?_⟩
  · intro es₁ es₂ e e' t t' ps ps' h h' hs hd hs' hd'
    have l1 := congrArg List.length (main _ _ _ h)
    have l2 := congrArg List.length (main _ _ _ h')
    rw [List.length_map, List.length_map, List.filter_append, List.filter_cons] at l1 l2
    rw [if_neg (by simp [hs, hd])] at l1
    rw [if_pos (by simp [hs', hd'])] at l2
    rw [List.length_append] at l1 l2
    rw [List.length_cons] at l2
    omega
  · intro es₁ es₂ e t1 ps1 hes hstart hrem hdev
    obtain ⟨removable, hrem'⟩ : ∃ v,
        parse_block_file parse_u64_rr e.removableF = RunResult.value v := by
      cases hx : parse_block_file parse_u64_rr e.removableF with
      | panic => exact absurd hx hrem
      | value v => exact ⟨v, rfl⟩
    have hpe : scan_entry env bn e = ([], RunResult.panic) := by
      simp [scan_entry, hstart, hrem', hdev]
    simpa using read_partitions_append_panic env bn e es₂ [] hpe es₁ t1 ps1 hes

/-- C6 counterexample: a prefix-matching candidate whose `dev` content
`"256:0"` matches the regex but is not a valid major:minor pair, and one
whose `dev` file opens but fails to read, are not excluded from the
sequence — `read_partitions` panics and produces no sequence at all, so
the sequence cannot be one element shorter. -/
theorem read_partitions_dev_panic_counterexample :
    read_partitions
        { mounts := FileOutcome.ok "", swaps := FileOutcome.ok "",
          udev := fun _ => FileOutcome.openFail }
        [{ name := "sda1", removableF := .openFail, devF := .ok "256:0",
           sizeF := .openFail, roF := .openFail }] "sda"
      = ([], RunResult.panic)
    ∧ read_partitions
        { mounts := FileOutcome.ok "", swaps := FileOutcome.ok "",
          udev := fun _ => FileOutcome.openFail }
        [{ name := "sda1", removableF := .openFail, devF := .readFail,
           sizeF := .openFail, roF := .openFail }] "sda"
      = ([], RunResult.panic) :=
  ⟨rfl, rfl⟩

/-- C9 counterexample: a completed run over two partitions of one disk
opens `/proc/mounts` twice — once per partition — not at most once per
run. -/
theorem proc_mounts_reread_counterexample :
    (read_partitions
        { mounts := FileOutcome.ok "", swaps := FileOutcome.ok "",
          udev := fun _ => FileOutcome.openFail }
        [{ name := "sda1", removableF := .openFail, devF := .ok "8:1",
           sizeF := .openFail, roF := .openFail },
         { name := "sda2", removableF := .openFail, devF := .ok "8:2",
           sizeF := .openFail, roF := .openFail }]
        "sda").1.count "/proc/mounts" = 2 := by
  decide

/-- C9 (amended): the mount-table source is not read once per run and
then reused — `read_partitions` opens `/proc/mounts` exactly once per
partition it includes (and `/proc/swaps` once more for each included
partition whose device path misses the mount table): in every completed
scan the number of `/proc/mounts` opens equals the number of partitions
produced. -/
theorem proc_mounts_read_per_partition (env : Env) (bn : String) :
    ∀ (es : List DirEntry) (t : List String) (ps : List Partition),
      read_partitions env es bn = (t, RunResult.value ps) →
      t.count "/proc/mounts" = ps.length := by
  intro es
  induction es with
  | nil =>
    intro t ps h
    simp only [read_partitions] at h
    rw [Prod.mk.injEq] at h
    obtain ⟨h1, h2⟩ := h
    injection h2 with h2
    subst h1
    subst h2
    rfl
  | cons e es ih =>
    intro t ps h
    simp only [read_partitions] at h
    split at h
    next t1 heq1 => simp at h
    next t1 op heq1 =>
      split at h
      next t2 heq2 => simp at h
      next t2 ps2 heq2 =>
        rw [Prod.mk.injEq] at h
        obtain ⟨h1, h2⟩ := h
        injection h2 with h2
        subst h1
        subst h2
        obtain ⟨hcount, -, -⟩ := scan_entry_spec env bn e t1 op heq1
        rw [List.count_append, hcount, ih t2 ps2 heq2]
        cases op with
        | none => simp
        | some p =>
          simp
          omega

/-- Witness for C9's amended theorem: in the two-partition run the trace
holds two `/proc/mounts` opens, matching the two produced partitions. -/
theorem proc_mounts_read_per_partition_witness :
    (["/proc/mounts", "/proc/swaps", "/proc/mounts", "/proc/swaps"] : List String).count
        "/proc/mounts"
      = ([Partition.mk "sda1" ⟨8, 1⟩ none none none none "",
          Partition.mk "sda2" ⟨8, 2⟩ none none none none ""] : List Partition).length :=
  proc_mounts_read_per_partition
    { mounts := FileOutcome.ok "", swaps := FileOutcome.ok "",
      udev := fun _ => FileOutcome.openFail } "sda"
    [{ name := "sda1", removableF := .openFail, devF := .ok "8:1",
       sizeF := .openFail, roF := .openFail },
     { name := "sda2", removableF := .openFail, devF := .ok "8:2",
       sizeF := .openFail, roF := .openFail }]
    _ _ rfl

/-- Witness for C6's amended theorem at concrete scans: the entry with a
valid `dev` (`sda1`) is included and the entry with an absent `dev`
(`sda2`) excluded; swapping the excluded entry for one with a valid
`dev` lengthens the sequence by exactly one; and appending an entry
whose `dev` content is `"256:0"` turns the completed one-partition scan
into a panic. -/
theorem read_partitions_inclusion_amended_witness :
    ([Partition.mk "sda1" ⟨8, 1⟩ none none none none ""] : List Partition).map
        Partition.name
      = (([{ name := "sda1", removableF := .openFail, devF := .ok "8:1",
             sizeF := .openFail, roF := .openFail },
           { name := "sda2", removableF := .openFail, devF := .openFail,
             sizeF := .openFail, roF := .openFail }] : List DirEntry).filter
          fun e => startsWithL e.name "sda" && devOk e).map DirEntry.name
    ∧ ([Partition.mk "sda1" ⟨8, 1⟩ none none none none "",
        Partition.mk "sda2" ⟨8, 2⟩ none none none none ""] : List Partition).length
      = ([Partition.mk "sda1" ⟨8, 1⟩ none none none none ""] : List Partition).length
          + 1
    ∧ read_partitions
        { mounts := FileOutcome.ok "", swaps := FileOutcome.ok "",
          udev := fun _ => FileOutcome.openFail }
        ([{ name := "sda1", removableF := .openFail, devF := .ok "8:1",
            sizeF := .openFail, roF := .openFail }] ++
          { name := "sda2", removableF := .openFail, devF := .ok "256:0",
            sizeF := .openFail, roF := .openFail } :: []) "sda"
      = (["/proc/mounts", "/proc/swaps"], RunResult.panic) := by
  refine ⟨?_, ?_, ?_⟩
  · exact (read_partitions_inclusion_amended
      { mounts := FileOutcome.ok "", swaps := FileOutcome.ok "",
        udev := fun _ => FileOutcome.openFail } "sda").1
      [{ name := "sda1", removableF := .openFail, devF := .ok "8:1",
         sizeF := .openFail, roF := .openFail },
       { name := "sda2", removableF := .openFail, devF := .openFail,
         sizeF := .openFail, roF := .openFail }]
      _ _ rfl
  · exact (read_partitions_inclusion_amended
      { mounts := FileOutcome.ok "", swaps := FileOutcome.ok "",
        udev := fun _ => FileOutcome.openFail } "sda").2.1
      [{ name := "sda1", removableF := .openFail, devF := .ok "8:1",
         sizeF := .openFail, roF := .openFail }] []
      { name := "sda2", removableF := .openFail, devF := .openFail,
        sizeF := .openFail, roF := .openFail }
      { name := "sda2", removableF := .openFail, devF := .ok "8:2",
        sizeF := .openFail, roF := .openFail }
      _ _ _ _ rfl rfl (by decide) (by decide) (by decide) (by decide)
  · exact (read_partitions_inclusion_amended
      { mounts := FileOutcome.ok "", swaps := FileOutcome.ok "",
        udev := fun _ => FileOutcome.openFail } "sda").2.2
      [{ name := "sda1", removableF := .openFail, devF := .ok "8:1",
         sizeF := .openFail, roF := .openFail }] []
      { name := "sda2", removableF := .openFail, devF := .ok "256:0",
        sizeF := .openFail, roF := .openFail }
      _ _ rfl (by decide) (by decide) (by decide)

/-- C10: in the rendered rows, every partition row's RM column is
`pretty_removable` of the parent block's `removable` field (the tail of
a block's rows is a constant RM column), and rewriting the `removable`
field of every partition — by any function whatsoever — leaves the whole
table unchanged: the partition's own `removable` never influences the
output. -/
theorem partition_row_removable_from_block (sizeFmt : Option Nat → String)
    (b : Block) (blocks : List Block) (g : Block → Partition → Option Nat) :
    ((rows_of_block sizeFmt b).tail.map Row.removable
      = List.replicate b.partitions.length (pretty_removable b.removable))
    ∧ rows_of_blocks sizeFmt (blocks.map (fun bl =>
        { bl with partitions := bl.partitions.map (fun p => { p with removable := g bl p }) }))
      = rows_of_blocks sizeFmt blocks := by
  have hblock : ∀ bl : Block, rows_of_block sizeFmt
      { bl with partitions := bl.partitions.map (fun p => { p with removable := g bl p }) }
      = rows_of_block sizeFmt bl := by
    intro bl
    rw [rows_of_block, rows_of_block]
    congr 1
    rw [List.enum_map, List.map_map]
    congr 1
    funext ip
    cases ip with
    | mk i p => simp [List.length_map]
  constructor
  · rw [rows_of_block]
    simp only [List.tail_cons, List.map_map]
    refine List.eq_replicate_iff.mpr ⟨?_, ?_⟩
    · simp
    · intro x hx
      rcases List.mem_map.mp hx with ⟨ip, hip, rfl⟩
      rfl
  · rw [rows_of_blocks, rows_of_blocks, List.map_map]
    have hfun : (rows_of_block sizeFmt ∘ fun bl =>
        { bl with partitions := bl.partitions.map (fun p => { p with removable := g bl p }) })
        = rows_of_block sizeFmt := by
      funext bl
      exact hblock bl
    rw [hfun]

end Lsblk
